import Mathlib

/-!
Verification of the Availability & Table-Assignment Engine of the
restaurant-booking-system repository.

The JavaScript source is shallowly embedded below.  Conventions shared by all
definitions:

* Timestamps are natural numbers counting minutes since an epoch midnight.
  A calendar date is a natural number counting days since that epoch; the
  epoch day is a Sunday, so `moment(date).day()` becomes `date % 7`.
  The absolute timestamp of minute `m` of day `d` is `d * 1440 + m`.
* Times of day ("HH:MM" strings in the source) are minutes since midnight.
  The source compares such strings lexicographically (`dayHours.close <
  dayHours.open`); for fixed-width "HH:MM" strings lexicographic order agrees
  with numeric order on minutes, so `<` on naturals is a faithful rendering.
* Mongo object ids are natural numbers.
* The single `Restaurant` configuration document is modelled as always
  present (the seed scripts create it); the `findOne()`-returns-null branches
  are therefore not part of the model.
* Each controller endpoint becomes a pure function from a `Store` (the
  relevant database contents) and the request data to a response value plus
  an updated `Store`.
-/

namespace RBS

/-- One weekly-schedule entry of `Restaurant.openingHours`
(`{ day, open, close, isClosed }`).  `openM`/`closeM` are the "HH:MM"
strings rendered as minutes since midnight. -/
structure DayHours where
  day : Nat
  openM : Nat
  closeM : Nat
  isClosed : Bool
deriving DecidableEq, Repr

/-- One entry of `Restaurant.closedDates` (`{ date, reason }`).  A missing
`reason` is the empty string (the source tests JS truthiness, and the only
falsy `String` value relevant here is the empty one). -/
structure ClosedDate where
  cdate : Nat
  reason : String
deriving DecidableEq, Repr

/-- One entry of `Restaurant.specialEvents`; only the fields the engine
reads (`date`, optional `customOpeningHours.open/close`). -/
structure SpecialEvent where
  edate : Nat
  customOpeningHours : Option (Nat × Nat)
deriving DecidableEq, Repr

/-- The `Restaurant.bookingRules` sub-document, restricted to the fields the
availability engine reads. -/
structure BookingRules where
  timeSlotDuration : Nat
  maxPartySize : Nat
  maxCapacityThreshold : Nat
deriving DecidableEq, Repr

/-- The singleton `Restaurant` settings document (fields read by the engine). -/
structure Restaurant where
  openingHours : List DayHours
  closedDates : List ClosedDate
  specialEvents : List SpecialEvent
  maxCapacity : Nat
  bookingRules : BookingRules
deriving DecidableEq, Repr

/-- A `Table` document (fields read by the engine). -/
structure Table where
  id : Nat
  capacity : Nat
  isActive : Bool
  isReservable : Bool
deriving DecidableEq, Repr

/-- The `Booking.status` enum. -/
inductive BStatus where
  | pending | confirmed | seated | completed | cancelled | noShow
deriving DecidableEq, Repr

/-- The `Booking.timeSlot` sub-document; `endT` renders the source field
`end` (a Lean keyword). -/
structure TimeSlot where
  start : Nat
  endT : Nat
deriving DecidableEq, Repr

/-- A `Booking` document (fields read by the engine; customer contact data,
special requests and audit fields carry no engine logic and are omitted). -/
structure Booking where
  id : Nat
  partySize : Nat
  date : Nat
  timeSlot : TimeSlot
  duration : Nat
  tables : List Nat
  status : BStatus
  source : String
deriving DecidableEq, Repr

/-- The database contents read and written by the booking controller. -/
structure Store where
  restaurant : Restaurant
  tables : List Table
  bookings : List Booking
  nextId : Nat
deriving DecidableEq, Repr

/-- The statuses `['pending', 'confirmed', 'seated']` used by every
overlap query. -/
def activeStatuses : List BStatus := [.pending, .confirmed, .seated]

/-- `moment(date).day()` for an epoch whose day 0 is a Sunday. -/
def dayOfWeek (d : Nat) : Nat := d % 7

/-- Zero-padded rendering of a minute count, `fmtTime` below uses it. -/
def pad2 (n : Nat) : String := if n < 10 then "0" ++ toString n else toString n

/-- Rendering of a time of day as the "HH:MM" text used in reason strings. -/
def fmtTime (m : Nat) : String := pad2 (m / 60) ++ ":" ++ pad2 (m % 60)

/-- The closed-date rejection message built in `checkRestaurantOpen`:
`"Restaurant is closed on this date" + (reason ? ": " + reason : "")`. -/
def closedDateMsg (r : String) : String :=
  "Restaurant is closed on this date" ++ (if r = "" then "" else ": " ++ r)

/-- Result of `checkRestaurantOpen` (`{ isOpen, reason }` in the source). -/
inductive OpenStatus where
  | openOk
  | closed (reason : String)
deriving DecidableEq, Repr

/-- Lines 64-85 of `bookingUtils.checkRestaurantOpen`: once a `dayHours`
record has been selected, compare the requested window against the day's
open/close timestamps, moving the close boundary to the next day when the
close time is lexicographically (= numerically) before the open time. -/
def hoursCheck (date : Nat) (dh : DayHours) (startT endT : Nat) : OpenStatus :=
  if dh.isClosed then .closed "Restaurant is closed on this day"
  else
    let openTime := date * 1440 + dh.openM
    let closeTime :=
      if dh.closeM < dh.openM then date * 1440 + dh.closeM + 1440
      else date * 1440 + dh.closeM
    if startT < openTime ∨ endT > closeTime then
      .closed ("Booking is outside opening hours (" ++ fmtTime dh.openM ++
        " - " ++ fmtTime dh.closeM ++ ")")
    else .openOk

/-- `bookingUtils.checkRestaurantOpen(date, startTime, endTime)`.  The source
first matches `date` against `closedDates`, then looks for a special event
with custom hours, and otherwise falls back to the weekly schedule entry for
the day of week; a missing entry counts as closed. -/
def checkRestaurantOpen (r : Restaurant) (date startT endT : Nat) : OpenStatus :=
  match r.closedDates.find? (fun c => c.cdate = date) with
  | some c => .closed (closedDateMsg c.reason)
  | none =>
    let specialEvent := r.specialEvents.find? (fun ev => ev.edate = date)
    let dayHours : Option DayHours :=
      match specialEvent with
      | some ev =>
        match ev.customOpeningHours with
        | some oc => some ⟨dayOfWeek date, oc.1, oc.2, false⟩
        | none => r.openingHours.find? (fun h => h.day = dayOfWeek date)
      | none => r.openingHours.find? (fun h => h.day = dayOfWeek date)
    match dayHours with
    | none => .closed "Restaurant is closed on this day"
    | some dh => hoursCheck date dh startT endT

/-! ### JavaScript number arithmetic for the capacity guard

The source computes
`Math.floor(restaurant.maxCapacity * (restaurant.bookingRules.maxCapacityThreshold / 100))`
with IEEE-754 binary64 ("double") arithmetic: the division and the
multiplication each round their exact rational result to the nearest double
(ties to even).  The inputs are natural numbers well inside the range where
doubles are exact, and every intermediate value is either zero or a normal
positive double, so binary64 arithmetic is exactly "round the exact rational
to 53 significant bits".  That rounding is implemented below on
mantissa/exponent pairs `(m, e)` denoting `m * 2 ^ e`. -/

/-- Fuel-driven `⌊log₂ n⌋` (`0` for `n ≤ 1`); fuel 400 is enough for every
number below `2 ^ 400`, far above anything produced here. -/
def log2fuel : Nat → Nat → Nat
  | 0, _ => 0
  | fuel + 1, n => if n ≤ 1 then 0 else log2fuel fuel (n / 2) + 1

/-- Round the nonnegative rational `num / den` to the nearest integer,
ties to even. -/
def roundMantissa (num den : Nat) : Nat :=
  let q := num / den
  let r := num % den
  if 2 * r < den then q
  else if den < 2 * r then q + 1
  else if q % 2 = 0 then q else q + 1

/-- Round the nonnegative rational `a / b` (`b ≠ 0`; `a = 0` or
`2 ^ (-120) ≤ a / b < 2 ^ 270`, which covers every value that occurs in the
capacity computation) to the nearest IEEE binary64 value, returned as a
mantissa/exponent pair `(m, e)` denoting `m * 2 ^ e`.  The exponent is chosen
so that the true value lies in `[2 ^ 52, 2 ^ 53) * 2 ^ e`, and the mantissa is
rounded to the nearest integer with ties to even — precisely binary64
round-to-nearest in the normal range. -/
def roundRat (a b : Nat) : Nat × Int :=
  if a = 0 then (0, 0)
  else
    let L : Int := (log2fuel 400 (a * 2 ^ 120 / b) : Int) - 120
    let e : Int := L - 52
    let num := a * 2 ^ (-e).toNat
    let den := b * 2 ^ e.toNat
    (roundMantissa num den, e)

/-- `Math.floor` of the nonnegative dyadic value `m * 2 ^ e`. -/
def dyadicFloor (me : Nat × Int) : Nat :=
  if 0 ≤ me.2 then me.1 * 2 ^ me.2.toNat else me.1 / 2 ^ (-me.2).toNat

/-- Line 175 of `bookingUtils.findAvailableTables`:
`Math.floor(restaurant.maxCapacity * (restaurant.bookingRules.maxCapacityThreshold / 100))`
in binary64 arithmetic: round `thr / 100`, multiply exactly by `cap`, round
the product, take the floor. -/
def jsMaxAllowed (cap thr : Nat) : Nat :=
  let d := roundRat thr 100
  let p :=
    if 0 ≤ d.2 then roundRat (cap * d.1 * 2 ^ d.2.toNat) 1
    else roundRat (cap * d.1) (2 ^ (-d.2).toNat)
  dyadicFloor p

/-- The formula the specification states for the capacity guard:
`maxAllowed = floor(venueMaxCapacity * thresholdPercent / 100)` in exact
integer arithmetic.  Kept separate from `jsMaxAllowed` (the source's
floating-point computation) so the two can be compared. -/
def specMaxAllowed (cap thr : Nat) : Nat := cap * thr / 100

/-! ### Overlap index, candidate tables and the table-assignment solver -/

/-- The Mongo query filter of `findAvailableTables` (lines 116-125): bookings
on the requested day, status in `['pending', 'confirmed', 'seated']`, whose
half-open interval strictly intersects the requested `[startTime, endTime)`
(`timeSlot.start < endTime && timeSlot.end > startTime`). -/
def overlappingBookings (bookings : List Booking) (date s e : Nat) : List Booking :=
  bookings.filter fun b =>
    decide (b.date = date) && activeStatuses.contains b.status &&
      decide (b.timeSlot.start < e) && decide (b.timeSlot.endT > s)

/-- Lines 128-133: the set of table ids held by the overlapping bookings
(the source collects them into a JS `Set`; only membership is ever used, so
a concatenated list is an equivalent rendering). -/
def bookedTableIds (obs : List Booking) : List Nat :=
  obs.foldl (fun acc b => acc ++ b.tables) []

/-- The comparison `(a, b) => a.capacity - b.capacity` used with JS
`Array.prototype.sort`. -/
def byCapacity : Table → Table → Prop := fun a b => a.capacity ≤ b.capacity

instance : DecidableRel byCapacity := fun a b => Nat.decLe a.capacity b.capacity

instance : IsTotal Table byCapacity := ⟨fun a b => Nat.le_total a.capacity b.capacity⟩

instance : IsTrans Table byCapacity := ⟨fun _ _ _ => Nat.le_trans⟩

/-- JS `Array.prototype.sort` with the capacity comparator.  ES2019 requires
the sort to be stable, and all stable sorts under one comparator compute the
same list, so stable insertion sort is a faithful model. -/
def sortByCapacity (l : List Table) : List Table := List.insertionSort byCapacity l

/-- Lines 136-138: tables that are active, not held by an overlapping
booking, and reservable, sorted by ascending capacity. -/
def availableTablesOf (tables : List Table) (bookings : List Booking) (date s e : Nat) :
    List Table :=
  let booked := bookedTableIds (overlappingBookings bookings date s e)
  sortByCapacity ((tables.filter (·.isActive)).filter fun t =>
    !(booked.contains t.id) && t.isReservable)

/-- All index pairs `i < j` of a list in the enumeration order of the two
nested loops of `findBestTableCombination` (lines 220-228): row-major,
outer index first. -/
def pairsList : List α → List (α × α)
  | [] => []
  | x :: xs => (xs.map fun y => (x, y)) ++ pairsList xs

/-- All index triples `i < j < k` in the enumeration order of the three
nested loops (lines 232-242). -/
def triplesList : List α → List (α × α × α)
  | [] => []
  | x :: xs => ((pairsList xs).map fun pr => (x, pr.1, pr.2)) ++ triplesList xs

/-- The shared body of the pair and triple loops: starting from
`bestCombination = []`, `bestCapacity = 0`, take a candidate whenever its
combined capacity reaches the party size and is strictly below the best so
far (`bestCapacity === 0 ||` admits the first qualifying candidate).  The
triple loop runs only when the pair loop assigned nothing, in which case
`bestCapacity` is still `0`, so both loops start from `([], 0)`. -/
def bestStep (p : Nat) (w : ι → Nat) (mk : ι → List Table)
    (acc : List Table × Nat) (it : ι) : List Table × Nat :=
  if p ≤ w it ∧ (acc.2 = 0 ∨ w it < acc.2) then (mk it, w it) else acc

/-- The loop itself: fold `bestStep` from `([], 0)`. -/
def bestRun (p : Nat) (w : ι → Nat) (mk : ι → List Table) (items : List ι) :
    List Table × Nat :=
  items.foldl (bestStep p w mk) ([], 0)

/-- Combined capacity of a pair of tables. -/
def pairCap (pr : Table × Table) : Nat := pr.1.capacity + pr.2.capacity

/-- Combined capacity of a triple of tables. -/
def tripleCap (tr : Table × Table × Table) : Nat :=
  tr.1.capacity + tr.2.1.capacity + tr.2.2.capacity

/-- `bookingUtils.findBestTableCombination(availableTables, partySize)`
(lines 198-246): first a single table of exactly the party size, then the
smallest single table of at least the party size, then the minimal-capacity
qualifying pair, then — only if no pair qualified — the minimal-capacity
qualifying triple, else the empty list. -/
def findBestTableCombination (avail : List Table) (p : Nat) : List Table :=
  match avail.find? fun t => decide (t.capacity = p) with
  | some t => [t]
  | none =>
    match sortByCapacity (avail.filter fun t => decide (p ≤ t.capacity)) with
    | t :: _ => [t]
    | [] =>
      let pairBest := bestRun p pairCap (fun pr => [pr.1, pr.2]) (pairsList avail)
      if pairBest.1.isEmpty then
        (bestRun p tripleCap (fun tr => [tr.1, tr.2.1, tr.2.2]) (triplesList avail)).1
      else pairBest.1

/-- Lines 158-172: the aggregate party-size sum.  The fold re-tests each
already-overlapping booking with the closed-interval condition
`start <= requestEnd && end >= requestStart` before adding its party size. -/
def overlapPartySum (obs : List Booking) (s e : Nat) : Nat :=
  obs.foldl
    (fun sum b =>
      if b.timeSlot.start ≤ e ∧ b.timeSlot.endT ≥ s then sum + b.partySize else sum)
    0

/-- The party-size rejection message (template literal on line 111). -/
def partySizeMsg (maxP : Nat) : String :=
  "Online booking is limited to parties of " ++ toString maxP ++
    " or fewer. Please contact the restaurant directly."

/-- Result of `findAvailableTables` (`{ available, tables?, capacity?, reason? }`). -/
inductive AvailResult where
  | notAvail (reason : String)
  | avail (tables : List Table) (capacity : Nat)
deriving DecidableEq, Repr

/-- `bookingUtils.findAvailableTables(date, startTime, endTime, partySize,
isStaff)` (lines 97-190). -/
def findAvailableTables (store : Store) (date s e p : Nat) (isStaff : Bool) :
    AvailResult :=
  let tables := store.tables.filter (·.isActive)
  if tables.isEmpty then .notAvail "No tables configured in the system"
  else if !isStaff && decide (p > store.restaurant.bookingRules.maxPartySize) then
    .notAvail (partySizeMsg store.restaurant.bookingRules.maxPartySize)
  else
    let obs := overlappingBookings store.bookings date s e
    let availTables := availableTablesOf store.tables store.bookings date s e
    if availTables.isEmpty then .notAvail "No tables available for the requested time"
    else
      let result := findBestTableCombination availTables p
      if result.isEmpty then
        .notAvail "No suitable table configuration available for the party size"
      else
        let totalCapacity := result.foldl (fun sum t => sum + t.capacity) 0
        let maxAllowed :=
          jsMaxAllowed store.restaurant.maxCapacity
            store.restaurant.bookingRules.maxCapacityThreshold
        if !isStaff && decide (overlapPartySum obs s e + p > maxAllowed) then
          .notAvail "This booking would exceed the restaurant capacity for this time slot"
        else .avail result totalCapacity

/-! ### Booking creation (`booking.controller.js`, `createBooking`) -/

/-- The booking-creation request body, plus the `isStaff` flag the controller
derives from `req.user.role`.  `time` is minutes since the requested day's
midnight; `duration` is `null`-able (defaulted to 120 on lines 97/199). -/
structure CreateRequest where
  partySize : Nat
  date : Nat
  time : Nat
  duration : Option Nat
  tableIds : List Nat
  isStaff : Bool
deriving DecidableEq, Repr

/-- One constructor per return site of `createBooking`: the venue-closed 400
(line 111), the party-size 400 (line 120), the no-availability 400 (line
136), the requested-tables-not-available 400 (line 149), the catch-all 500
(reached when `findAvailableTables` returns no `tables` field and
`availability.tables.map` throws, lines 163-180), and the 201 with the
created booking. -/
inductive CreateOutcome where
  | closedRejected (reason : String)
  | partyRejected (msg : String)
  | notAvailRejected (reason : String)
  | tableConflict (msg : String)
  | serverError
  | created (b : Booking)
deriving DecidableEq, Repr

/-- Lines 158-184: choose the table ids to assign.  When the request names no
tables, `findAvailableTables` is called (again, for customers) with the
caller's staff flag and its tables are used; explicitly requested ids are
used as given. -/
def assignTableIds (store : Store) (req : CreateRequest) (s e : Nat) :
    Except CreateOutcome (List Nat) :=
  if req.tableIds.isEmpty then
    match findAvailableTables store req.date s e req.partySize req.isStaff with
    | .avail ts _ => .ok (ts.map (·.id))
    | .notAvail _ => .error .serverError
  else .ok req.tableIds

/-- Lines 99-184 of `createBooking`: everything before the `Booking.create`
call.  For non-staff callers this runs the calendar check, the party-size
cap, the availability check and the requested-table validation (requested
ids must be among the solver's tables); staff callers skip the whole block.
Returns the table ids that will be persisted, or the rejection. -/
def bookingDecision (store : Store) (req : CreateRequest) :
    Except CreateOutcome (List Nat) :=
  let s := req.date * 1440 + req.time
  let e := s + req.duration.getD 120
  if req.isStaff then assignTableIds store req s e
  else
    match checkRestaurantOpen store.restaurant req.date s e with
    | .closed reason => .error (.closedRejected reason)
    | .openOk =>
      if req.partySize > store.restaurant.bookingRules.maxPartySize then
        .error (.partyRejected (partySizeMsg store.restaurant.bookingRules.maxPartySize))
      else
        match findAvailableTables store req.date s e req.partySize false with
        | .notAvail reason => .error (.notAvailRejected reason)
        | .avail ts _ =>
          if req.tableIds.any (fun tid => !((ts.map (·.id)).contains tid)) then
            .error (.tableConflict "One or more selected tables are not available")
          else assignTableIds store req s e

/-- The `bookingData` document built on lines 187-205. -/
def mkBooking (store : Store) (req : CreateRequest) (assigned : List Nat) : Booking :=
  let s := req.date * 1440 + req.time
  { id := store.nextId
    partySize := req.partySize
    date := req.date
    timeSlot := ⟨s, s + req.duration.getD 120⟩
    duration := req.duration.getD 120
    tables := assigned
    status := if req.isStaff then .confirmed else .pending
    source := if req.isStaff then "manual" else "online" }

/-- `Booking.create`: append the document, handing it the next object id. -/
def commitBooking (store : Store) (b : Booking) : Store :=
  { store with bookings := store.bookings ++ [b], nextId := store.nextId + 1 }

/-- `createBooking` (lines 74-228) as decision plus commit.  The availability
cache refresh the controller triggers afterwards is `updateAvailabilityCache`
below; it does not feed back into the booking store. -/
def createBooking (store : Store) (req : CreateRequest) : CreateOutcome × Store :=
  match bookingDecision store req with
  | .error o => (o, store)
  | .ok assigned =>
    let b := mkBooking store req assigned
    (.created b, commitBooking store b)

/-- Two concurrent `createBooking` requests interleaved so that both read the
booking store before either commits — the schedule the unguarded
check-then-commit sequence of the controller admits, since every `await`
between the availability reads and `Booking.create` yields to the other
request. -/
def interleavedCreate (store : Store) (r1 r2 : CreateRequest) : Store :=
  let d1 := bookingDecision store r1
  let d2 := bookingDecision store r2
  let s1 :=
    match d1 with
    | .ok ids => commitBooking store (mkBooking store r1 ids)
    | .error _ => store
  match d2 with
  | .ok ids => commitBooking s1 (mkBooking s1 r2 ids)
  | .error _ => s1

/-- The core invariant of §3 of the specification, as a predicate on a
booking store: two distinct bookings in a seat-holding status never hold a
common table over intersecting half-open intervals. -/
def noDoubleBooking (bs : List Booking) : Prop :=
  ∀ b1 ∈ bs, ∀ b2 ∈ bs, b1.id ≠ b2.id →
    b1.status ∈ activeStatuses → b2.status ∈ activeStatuses →
    ∀ t ∈ b1.tables, t ∈ b2.tables →
      b1.timeSlot.endT ≤ b2.timeSlot.start ∨ b2.timeSlot.endT ≤ b1.timeSlot.start

instance (bs : List Booking) : Decidable (noDoubleBooking bs) := by
  unfold noDoubleBooking; infer_instance

/-! ### Booking status updates (`updateBookingStatus`, lines 467-507) -/

/-- Result of `updateBookingStatus`: the invalid-status 400, the unknown-id
404, or the 200 carrying the updated booking. -/
inductive StatusResult where
  | invalidStatus
  | notFound
  | updated (b : Booking)
deriving DecidableEq, Repr

/-- The status strings accepted on line 471, mapped into the enum. -/
def parseStatus (s : String) : Option BStatus :=
  if s = "pending" then some .pending
  else if s = "confirmed" then some .confirmed
  else if s = "seated" then some .seated
  else if s = "completed" then some .completed
  else if s = "cancelled" then some .cancelled
  else if s = "no-show" then some .noShow
  else none

/-- `updateBookingStatus(req.params.id, req.body.status)`: after the enum
membership test, `findByIdAndUpdate` stores the new status on whichever
booking matches the id — the current status is never consulted. -/
def updateBookingStatus (store : Store) (bid : Nat) (status : String) :
    StatusResult × Store :=
  match parseStatus status with
  | none => (.invalidStatus, store)
  | some st =>
    match store.bookings.find? (fun b => decide (b.id = bid)) with
    | none => (.notFound, store)
    | some b =>
      ({ b with status := st } |> .updated,
        { store with
            bookings := store.bookings.map fun x =>
              if x.id = bid then { x with status := st } else x })

/-! ### The availability cache (`updateAvailabilityCache`, lines 252-380) -/

/-- One entry of `Availability.blockedSlots`. -/
structure BlockedSlot where
  start : Nat
  endT : Nat
  reason : String
  bookingId : Option Nat
deriving DecidableEq, Repr

/-- One `Availability` document (without the `lastUpdated` audit stamp, which
`findOneAndUpdate` leaves untouched on re-writes). -/
structure Snapshot where
  availableSlots : List (Nat × Nat)
  blockedSlots : List BlockedSlot
deriving DecidableEq, Repr

/-- The `Availability` collection, keyed by its unique `(date, tableId)`
index. -/
def Cache : Type := Nat × Nat → Option Snapshot

/-- `Availability.findOneAndUpdate(key, value, { upsert: true })`. -/
def upsert (key : Nat × Nat) (v : Snapshot) (c : Cache) : Cache :=
  fun k => if k = key then some v else c k

/-- A sequence of upserts, one per active table, in list order. -/
def writeAll (entries : List ((Nat × Nat) × Snapshot)) (c : Cache) : Cache :=
  entries.foldl (fun acc ent => upsert ent.1 ent.2 acc) c

/-- The while loop of lines 336-353: starting at the opening timestamp, emit
`[cur, cur + dur)` slots while the slot still fits before the closing
timestamp (a final partial slot is dropped by the `break`).  The loop is
rendered with explicit fuel; `endT - startT + 1` bounds the iteration count
whenever `dur ≥ 1` (the schema enforces `timeSlotDuration ≥ 15`). -/
def genSlotsAux : Nat → Nat → Nat → Nat → List (Nat × Nat)
  | 0, _, _, _ => []
  | fuel + 1, cur, endT, dur =>
    if cur < endT then
      if cur + dur > endT then []
      else (cur, cur + dur) :: genSlotsAux fuel (cur + dur) endT dur
    else []

/-- The generated slot partition of `[startT, endT)`. -/
def genSlots (startT endT dur : Nat) : List (Nat × Nat) :=
  genSlotsAux (endT - startT + 1) startT endT dur

/-- The snapshot written for every active table on a closed date (lines
275-288): no available slots, one full-day blocked interval tagged
`closed`.  `moment().endOf('day')` is the last representable instant of the
day; at this model's minute resolution that is the day's exclusive upper
boundary. -/
def closedDaySnapshot (date : Nat) : Snapshot :=
  { availableSlots := []
    blockedSlots := [⟨date * 1440, date * 1440 + 1440, "closed", none⟩] }

/-- The snapshot written for one table on an open date (lines 333-366): the
full generated slot list as `availableSlots`, and one `booking`-tagged
blocked interval per active booking of that table. -/
def tableSnapshot (dayBookings : List Booking) (startT endT dur : Nat) (t : Table) :
    Snapshot :=
  { availableSlots := genSlots startT endT dur
    blockedSlots :=
      (dayBookings.filter fun b => b.tables.contains t.id).map fun b =>
        ⟨b.timeSlot.start, b.timeSlot.endT, "booking", some b.id⟩ }

/-- Lines 258-273 of `updateAvailabilityCache`: the date is treated as closed
when it appears in `closedDates` or its weekly entry is flagged closed. -/
def cacheDayClosed (r : Restaurant) (date : Nat) : Bool :=
  (r.closedDates.any fun cd => decide (cd.cdate = date)) ||
    (match r.openingHours.find? fun h => decide (h.day = dayOfWeek date) with
     | some ds => ds.isClosed
     | none => false)

/-- Lines 293-305: the operating hours used by the cache builder — custom
special-event hours first, then the weekly entry, then the hard-coded
09:00/22:00 default. -/
def cacheHours (r : Restaurant) (date : Nat) : Nat × Nat :=
  let daySettings := r.openingHours.find? fun h => decide (h.day = dayOfWeek date)
  match r.specialEvents.find? fun ev => decide (ev.edate = date) with
  | some ev =>
    match ev.customOpeningHours with
    | some hrs => hrs
    | none => match daySettings with | some ds => (ds.openM, ds.closeM) | none => (540, 1320)
  | none => match daySettings with | some ds => (ds.openM, ds.closeM) | none => (540, 1320)

/-- The opening timestamp the cache builder partitions from. -/
def cacheStart (r : Restaurant) (date : Nat) : Nat := date * 1440 + (cacheHours r date).1

/-- The closing timestamp, pushed to the next day for overnight hours
(lines 321-324). -/
def cacheEnd (r : Restaurant) (date : Nat) : Nat :=
  date * 1440 + (cacheHours r date).2 +
    (if (cacheHours r date).2 < (cacheHours r date).1 then 1440 else 0)

/-- Lines 327-330: the day's bookings in a seat-holding status. -/
def dayBookingsOf (allBookings : List Booking) (date : Nat) : List Booking :=
  allBookings.filter fun b =>
    decide (b.date = date) && activeStatuses.contains b.status

/-- The `(key, document)` pairs `updateAvailabilityCache` upserts for a
date, one per active table, in table order. -/
def cacheEntries (r : Restaurant) (allTables : List Table)
    (allBookings : List Booking) (date : Nat) : List ((Nat × Nat) × Snapshot) :=
  let tables := allTables.filter (·.isActive)
  if cacheDayClosed r date then
    tables.map fun t => ((date, t.id), closedDaySnapshot date)
  else
    tables.map fun t =>
      ((date, t.id),
        tableSnapshot (dayBookingsOf allBookings date) (cacheStart r date)
          (cacheEnd r date) r.bookingRules.timeSlotDuration t)

/-- `bookingUtils.updateAvailabilityCache(date)`: decide closure from the
closed-date list and the weekly entry, pick the operating hours with special
events overriding the weekly schedule (defaulting to 09:00-22:00 when no
entry exists), and upsert one snapshot per active table.  The source
computes each document inside the write loop; nothing it computes reads the
`Availability` collection, so collecting the documents first and upserting
them in the same order is the same function. -/
def updateAvailabilityCache (r : Restaurant) (allTables : List Table)
    (allBookings : List Booking) (date : Nat) (c : Cache) : Cache :=
  writeAll (cacheEntries r allTables allBookings date) c

/-! ### Concrete stores used by the witnesses and counterexamples -/

/-- C7 sample: a restaurant whose date 3 is both a closed date and a special
event with custom hours, and whose date 4 only carries the special event. -/
def sampleRestaurantC7 : Restaurant :=
  { openingHours := [⟨3, 660, 1320, false⟩, ⟨4, 660, 1320, false⟩]
    closedDates := [⟨3, "private party"⟩]
    specialEvents := [⟨3, some (600, 1380)⟩, ⟨4, some (600, 1380)⟩]
    maxCapacity := 100
    bookingRules := ⟨30, 10, 90⟩ }

/-- A restaurant open every day 11:00-22:00 with no overrides; slot duration
30 minutes, online party cap 10, capacity threshold 90% of 100. -/
def plainRestaurant : Restaurant :=
  { openingHours :=
      [⟨0, 660, 1320, false⟩, ⟨1, 660, 1320, false⟩, ⟨2, 660, 1320, false⟩,
       ⟨3, 660, 1320, false⟩, ⟨4, 660, 1320, false⟩, ⟨5, 660, 1320, false⟩,
       ⟨6, 660, 1320, false⟩]
    closedDates := []
    specialEvents := []
    maxCapacity := 100
    bookingRules := ⟨30, 10, 90⟩ }

/-- C2 sample booking: completed, id 1, table 1, day 3, 19:00-21:00. -/
def completedBooking : Booking :=
  { id := 1, partySize := 2, date := 3, timeSlot := ⟨3 * 1440 + 1140, 3 * 1440 + 1260⟩,
    duration := 120, tables := [1], status := .completed, source := "online" }

/-- C2 sample: one completed booking (id 1, table 1, day 3, 19:00-21:00). -/
def sampleStoreC2 : Store :=
  { restaurant := plainRestaurant
    tables := [⟨1, 4, true, true⟩]
    bookings := [completedBooking]
    nextId := 2 }

/-- C1 sample: one confirmed booking holding table 1 on day 3, 18:00-20:00. -/
def sampleStoreC1 : Store :=
  { restaurant := plainRestaurant
    tables := [⟨1, 4, true, true⟩]
    bookings :=
      [{ id := 1, partySize := 2, date := 3, timeSlot := ⟨3 * 1440 + 1080, 3 * 1440 + 1200⟩,
         duration := 120, tables := [1], status := .confirmed, source := "online" }]
    nextId := 2 }

/-- C1 failing request: a staff member books table 1 explicitly for day 3,
19:00-21:00 — overlapping the confirmed 18:00-20:00 booking on table 1. -/
def staffOverlapReq : CreateRequest :=
  { partySize := 2, date := 3, time := 1140, duration := some 120,
    tableIds := [1], isStaff := true }

deriving instance DecidableEq for Except

/-- The empty `Availability` collection. -/
def emptyCache : Cache := fun _ => none

/-- C3 sample booking: confirmed, table 1, day 3, 11:00-13:00. -/
def c3booking : Booking :=
  { id := 7, partySize := 2, date := 3, timeSlot := ⟨3 * 1440 + 660, 3 * 1440 + 780⟩,
    duration := 120, tables := [1], status := .confirmed, source := "online" }

/-- C3 sample tables: the single active, reservable table 1. -/
def c3tables : List Table := [⟨1, 4, true, true⟩]

/-- C4 sample: a single free table and no bookings. -/
def raceStore : Store :=
  { restaurant := plainRestaurant
    tables := [⟨1, 4, true, true⟩]
    bookings := []
    nextId := 1 }

/-- C4: a customer request for day 3, 19:00-21:00, party of 2; two such
requests issued concurrently contend for table 1. -/
def raceReq : CreateRequest :=
  { partySize := 2, date := 3, time := 1140, duration := some 120,
    tableIds := [], isStaff := false }

/-- C8 sample: venue capacity 100, threshold 29%; table 2 is held 19:00-21:00
by a confirmed party of 26, so a further party of 3 on table 1 brings the
overlapping sum to 29. -/
def w8store : Store :=
  { restaurant :=
      { openingHours :=
          [⟨0, 660, 1320, false⟩, ⟨1, 660, 1320, false⟩, ⟨2, 660, 1320, false⟩,
           ⟨3, 660, 1320, false⟩, ⟨4, 660, 1320, false⟩, ⟨5, 660, 1320, false⟩,
           ⟨6, 660, 1320, false⟩]
        closedDates := []
        specialEvents := []
        maxCapacity := 100
        bookingRules := ⟨30, 10, 29⟩ }
    tables := [⟨1, 4, true, true⟩, ⟨2, 26, true, true⟩]
    bookings :=
      [{ id := 1, partySize := 26, date := 3, timeSlot := ⟨3 * 1440 + 1140, 3 * 1440 + 1260⟩,
         duration := 120, tables := [2], status := .confirmed, source := "manual" }]
    nextId := 2 }

/-- C10 sample: a restaurant closed on date 3, with one free table. -/
def closedDayStore : Store :=
  { restaurant :=
      { openingHours :=
          [⟨0, 660, 1320, false⟩, ⟨1, 660, 1320, false⟩, ⟨2, 660, 1320, false⟩,
           ⟨3, 660, 1320, false⟩, ⟨4, 660, 1320, false⟩, ⟨5, 660, 1320, false⟩,
           ⟨6, 660, 1320, false⟩]
        closedDates := [⟨3, "holiday"⟩]
        specialEvents := []
        maxCapacity := 100
        bookingRules := ⟨30, 10, 90⟩ }
    tables := [⟨1, 4, true, true⟩]
    bookings := []
    nextId := 1 }

/-- C10: a staff booking of table 1 on the closed date 3, 19:00-21:00. -/
def staffClosedDayReq : CreateRequest :=
  { partySize := 2, date := 3, time := 1140, duration := some 120,
    tableIds := [1], isStaff := true }

/-- C6 sample booking: confirmed on table 1, day 3, 17:00-19:00 — its end
touches the 19:00 start of the requested window. -/
def touchingBooking : Booking :=
  { id := 9, partySize := 2, date := 3, timeSlot := ⟨3 * 1440 + 1020, 3 * 1440 + 1140⟩,
    duration := 120, tables := [1], status := .confirmed, source := "online" }

/-- C5/C6 sample tables. -/
def w5tablePair : List Table := [⟨1, 2, true, true⟩, ⟨2, 2, true, true⟩]

/-- C5 sample: two two-seaters and a six-seater. -/
def w5tableExact : List Table := [⟨1, 2, true, true⟩, ⟨2, 2, true, true⟩, ⟨3, 6, true, true⟩]

end RBS

namespace RBS

/-- C7.  The calendar check resolves rules with the fixed precedence
closed-date > special event > weekly schedule: a date found in `closedDates`
yields a closed answer carrying that entry's reason no matter what special
events say, and a date with no closed-date entry but a special event with
custom hours is judged against those hours alone (`hoursCheck` takes no
weekly schedule). -/
theorem checkRestaurantOpen_precedence (r : Restaurant) (d s e : Nat) :
    (∀ c, r.closedDates.find? (fun x => x.cdate = d) = some c →
      checkRestaurantOpen r d s e = .closed (closedDateMsg c.reason)) ∧
    (r.closedDates.find? (fun x => x.cdate = d) = none →
      ∀ ev o cl, r.specialEvents.find? (fun x => x.edate = d) = some ev →
        ev.customOpeningHours = some (o, cl) →
        checkRestaurantOpen r d s e = hoursCheck d ⟨dayOfWeek d, o, cl, false⟩ s e) := by
  constructor
  · intro c hc
    unfold checkRestaurantOpen
    rw [hc]
  · intro hnone ev o cl hev hco
    unfold checkRestaurantOpen
    rw [hnone, hev]
    simp only [hco]

/-- Witness for C7 at concrete inputs: date 3 resolves to closed with the
closed-date reason despite its special event, and date 4 is judged by the
event's custom hours (open at 10:00, before the weekly 11:00). -/
theorem checkRestaurantOpen_precedence_witness :
    checkRestaurantOpen sampleRestaurantC7 3 (3 * 1440 + 600) (3 * 1440 + 720)
      = .closed "Restaurant is closed on this date: private party" ∧
    checkRestaurantOpen sampleRestaurantC7 4 (4 * 1440 + 600) (4 * 1440 + 720)
      = hoursCheck 4 ⟨dayOfWeek 4, 600, 1380, false⟩ (4 * 1440 + 600) (4 * 1440 + 720) := by
  refine ⟨?_, ?_⟩
  · exact (checkRestaurantOpen_precedence sampleRestaurantC7 3 _ _).1
      ⟨3, "private party"⟩ (by decide)
  · exact (checkRestaurantOpen_precedence sampleRestaurantC7 4 _ _).2
      (by decide) ⟨4, some (600, 1380)⟩ 600 1380 (by decide) (by decide)

/-- C1.  The no-double-booking invariant is NOT preserved by every
booking-creation path: a staff-originated request that supplies explicit
table ids is persisted without any overlap validation (`createBooking` skips
the whole check block when `isStaff` and uses `tableIds` verbatim).
Starting from a store satisfying the invariant, with table 1 held
18:00-20:00 by a confirmed booking, the staff request for table 1 at
19:00-21:00 succeeds and the resulting store violates the invariant. -/
theorem staff_requested_tables_bypass_overlap_check :
    noDoubleBooking sampleStoreC1.bookings ∧
    (∃ b, (createBooking sampleStoreC1 staffOverlapReq).1 = .created b ∧
      b.tables = [1] ∧ b.status = .confirmed) ∧
    ¬ noDoubleBooking (createBooking sampleStoreC1 staffOverlapReq).2.bookings := by
  refine ⟨by decide, ⟨mkBooking sampleStoreC1 staffOverlapReq [1], by decide, by decide,
    by decide⟩, by decide⟩

/-- Unfolding of the table-id accumulation of `bookedTableIds`. -/
theorem mem_bookedTableIds_aux (obs : List Booking) (acc : List Nat) (x : Nat) :
    x ∈ obs.foldl (fun a b => a ++ b.tables) acc ↔
      x ∈ acc ∨ ∃ b ∈ obs, x ∈ b.tables := by
  induction obs generalizing acc with
  | nil => simp
  | cons o os ih =>
    have h1 : (o :: os).foldl (fun a b => a ++ b.tables) acc =
        os.foldl (fun a b => a ++ b.tables) (acc ++ o.tables) := rfl
    rw [h1, ih]
    simp [List.mem_append, or_assoc]

/-- A table id is collected by `bookedTableIds` exactly when one of the
overlapping bookings holds it. -/
theorem mem_bookedTableIds (obs : List Booking) (x : Nat) :
    x ∈ bookedTableIds obs ↔ ∃ b ∈ obs, x ∈ b.tables := by
  unfold bookedTableIds
  rw [mem_bookedTableIds_aux]
  simp

/-- C6.  The overlap test is half-open: a booking that merely touches the
requested window at an endpoint (its end equals the requested start, or its
start equals the requested end) is not selected by the overlap query, and a
table all of whose bookings merely touch the window stays among the
candidate tables, so the touching request can be seated on it. -/
theorem touching_interval_not_overlap (bookings : List Booking) (tables : List Table)
    (date s e : Nat) (b : Booking)
    (hb : b.timeSlot.endT = s ∨ b.timeSlot.start = e) :
    b ∉ overlappingBookings bookings date s e ∧
    (∀ t ∈ tables, t.isActive = true → t.isReservable = true →
      (∀ b2 ∈ bookings, t.id ∈ b2.tables →
        b2.timeSlot.endT = s ∨ b2.timeSlot.start = e) →
      t ∈ availableTablesOf tables bookings date s e) := by
  have key : ∀ b2 : Booking, b2.timeSlot.endT = s ∨ b2.timeSlot.start = e →
      (decide (b2.date = date) && activeStatuses.contains b2.status &&
        decide (b2.timeSlot.start < e) && decide (b2.timeSlot.endT > s)) ≠ true := by
    intro b2 h2 hc
    simp only [Bool.and_eq_true, decide_eq_true_eq] at hc
    rcases h2 with h2 | h2
    · exact absurd hc.2 (by rw [h2]; exact Nat.lt_irrefl s)
    · exact absurd hc.1.2 (by rw [h2]; exact Nat.lt_irrefl e)
  constructor
  · intro hmem
    exact key b hb ((List.mem_filter.mp hmem).2)
  · intro t htmem hact hres hall
    unfold availableTablesOf sortByCapacity
    rw [List.mem_insertionSort]
    refine List.mem_filter.mpr ⟨List.mem_filter.mpr ⟨htmem, by simp [hact]⟩, ?_⟩
    have hcon : t.id ∉ bookedTableIds (overlappingBookings bookings date s e) := by
      intro hmem2
      obtain ⟨b2, hb2, hb2t⟩ := (mem_bookedTableIds _ _).mp hmem2
      have hb2f := List.mem_filter.mp hb2
      exact key b2 (hall b2 hb2f.1 hb2t) hb2f.2
    simp [hcon, hres]

/-- Witness for C6: the 17:00-19:00 booking on table 1 touching the
19:00-21:00 request is not treated as overlapping, and table 1 remains a
candidate for the request. -/
theorem touching_interval_not_overlap_witness :
    touchingBooking ∉
      overlappingBookings [touchingBooking] 3 (3 * 1440 + 1140) (3 * 1440 + 1260) ∧
    (⟨1, 2, true, true⟩ : Table) ∈
      availableTablesOf [⟨1, 2, true, true⟩] [touchingBooking] 3
        (3 * 1440 + 1140) (3 * 1440 + 1260) := by
  constructor
  · exact (touching_interval_not_overlap [touchingBooking] [⟨1, 2, true, true⟩] 3
      (3 * 1440 + 1140) (3 * 1440 + 1260) touchingBooking (Or.inl (by decide))).1
  · exact (touching_interval_not_overlap [touchingBooking] [⟨1, 2, true, true⟩] 3
      (3 * 1440 + 1140) (3 * 1440 + 1260) touchingBooking (Or.inl (by decide))).2
      ⟨1, 2, true, true⟩ (by decide) (by decide) (by decide)
      (by intro b2 hb2 hmem
          have : b2 = touchingBooking := by
            rcases List.mem_cons.mp hb2 with h | h
            · exact h
            · cases h
          rw [this]
          exact Or.inl (by decide))

/-- Characterization of the minimal-waste loop: folding `bestStep` either
returns the accumulator unchanged — in which case every qualifying candidate
is at least as heavy as the held best (and something is held) — or returns a
qualifying candidate of minimal weight that also beats the accumulator. -/
theorem bestStep_foldl_char {ι : Type} (p : Nat) (w : ι → Nat) (mk : ι → List Table)
    (hp : 0 < p) (items : List ι) :
    ∀ acc : List Table × Nat,
      (items.foldl (bestStep p w mk) acc = acc ∧
        ∀ it ∈ items, p ≤ w it → acc.2 ≠ 0 ∧ acc.2 ≤ w it) ∨
      (∃ it ∈ items, p ≤ w it ∧
        items.foldl (bestStep p w mk) acc = (mk it, w it) ∧
        (∀ jt ∈ items, p ≤ w jt → w it ≤ w jt) ∧
        (acc.2 = 0 ∨ w it < acc.2)) := by
  induction items with
  | nil => intro acc; exact Or.inl ⟨rfl, by simp⟩
  | cons it0 its ih =>
    intro acc
    by_cases hc : p ≤ w it0 ∧ (acc.2 = 0 ∨ w it0 < acc.2)
    · have hstep : (it0 :: its).foldl (bestStep p w mk) acc =
          its.foldl (bestStep p w mk) (mk it0, w it0) := by
        simp only [List.foldl_cons, bestStep, if_pos hc]
      have hw0 : w it0 ≠ 0 := Nat.pos_iff_ne_zero.mp (Nat.lt_of_lt_of_le hp hc.1)
      rcases ih (mk it0, w it0) with ⟨heq, hmin⟩ | ⟨it, hmem, hq, heq, hmin, hlt⟩
      · refine Or.inr ⟨it0, List.mem_cons_self _ _, hc.1, ?_, ?_, hc.2⟩
        · rw [hstep, heq]
        · intro jt hjt hqj
          rcases List.mem_cons.mp hjt with h | h
          · subst h; exact Nat.le_refl _
          · exact (hmin jt h hqj).2
      · have hlt2 : w it < w it0 := by
          rcases hlt with h0 | h0
          · exact absurd h0 hw0
          · exact h0
        refine Or.inr ⟨it, List.mem_cons_of_mem _ hmem, hq, ?_, ?_, ?_⟩
        · rw [hstep, heq]
        · intro jt hjt hqj
          rcases List.mem_cons.mp hjt with h | h
          · subst h; exact Nat.le_of_lt hlt2
          · exact hmin jt h hqj
        · rcases hc.2 with ha | ha
          · exact Or.inl ha
          · exact Or.inr (Nat.lt_trans hlt2 ha)
    · have hstep : (it0 :: its).foldl (bestStep p w mk) acc =
          its.foldl (bestStep p w mk) acc := by
        simp only [List.foldl_cons, bestStep, if_neg hc]
      have hfail : p ≤ w it0 → acc.2 ≠ 0 ∧ acc.2 ≤ w it0 := by
        intro hq0
        have h2 : ¬ (acc.2 = 0 ∨ w it0 < acc.2) := fun h => hc ⟨hq0, h⟩
        push_neg at h2
        exact ⟨h2.1, h2.2⟩
      rcases ih acc with ⟨heq, hmin⟩ | ⟨it, hmem, hq, heq, hmin, hlt⟩
      · refine Or.inl ⟨by rw [hstep, heq], ?_⟩
        intro jt hjt hqj
        rcases List.mem_cons.mp hjt with h | h
        · subst h; exact hfail hqj
        · exact hmin jt h hqj
      · refine Or.inr ⟨it, List.mem_cons_of_mem _ hmem, hq, by rw [hstep, heq], ?_, hlt⟩
        intro jt hjt hqj
        rcases List.mem_cons.mp hjt with h | h
        · subst h
          have h3 := hfail hqj
          rcases hlt with h0 | h0
          · exact absurd h0 h3.1
          · exact Nat.le_of_lt (Nat.lt_of_lt_of_le h0 h3.2)
        · exact hmin jt h hqj

/-- When no candidate qualifies, the loop returns the empty sentinel. -/
theorem bestRun_eq_nil {ι : Type} (p : Nat) (w : ι → Nat) (mk : ι → List Table)
    (hp : 0 < p) (items : List ι) (h : ∀ it ∈ items, ¬ p ≤ w it) :
    bestRun p w mk items = ([], 0) := by
  rcases bestStep_foldl_char p w mk hp items ([], 0) with ⟨heq, _⟩ | ⟨it, hmem, hq, _⟩
  · exact heq
  · exact absurd hq (h it hmem)

/-- When some candidate qualifies, the loop returns a qualifying candidate
of minimal combined weight. -/
theorem bestRun_min {ι : Type} (p : Nat) (w : ι → Nat) (mk : ι → List Table)
    (hp : 0 < p) (items : List ι) (h : ∃ it ∈ items, p ≤ w it) :
    ∃ it ∈ items, p ≤ w it ∧ bestRun p w mk items = (mk it, w it) ∧
      ∀ jt ∈ items, p ≤ w jt → w it ≤ w jt := by
  rcases bestStep_foldl_char p w mk hp items ([], 0) with ⟨_, hmin⟩ | h2
  · obtain ⟨it, hmem, hq⟩ := h
    exact absurd rfl (hmin it hmem hq).1
  · obtain ⟨it, hmem, hq, heq, hmin, _⟩ := h2
    exact ⟨it, hmem, hq, heq, hmin⟩

/-- A capacity-sorted list is empty exactly when its input is. -/
theorem sortByCapacity_eq_nil {l : List Table} :
    sortByCapacity l = [] ↔ l = [] := by
  constructor
  · intro h
    have := List.perm_insertionSort byCapacity l
    rw [sortByCapacity] at h
    rw [h] at this
    exact this.symm.eq_nil
  · intro h; rw [h]; rfl

/-- C5.  `findBestTableCombination` applies its policy in strict order with
first success winning: (1) with an exact-capacity table present it returns a
single exact table (never a pair or triple); (2) otherwise, with some table
of sufficient capacity present, it returns a single sufficient table of
minimal capacity; (3) otherwise, with a qualifying pair present, it returns
a qualifying index pair (two distinct candidates) of minimal combined
capacity; (4) a triple is considered only when no pair qualifies, with the
same minimality rule; (5) with no qualifying configuration it returns the
empty list. -/
theorem findBestTableCombination_policy (avail : List Table) (p : Nat) (hp : 1 ≤ p) :
    ((∃ t ∈ avail, t.capacity = p) →
      ∃ t ∈ avail, t.capacity = p ∧ findBestTableCombination avail p = [t]) ∧
    ((¬ ∃ t ∈ avail, t.capacity = p) → (∃ t ∈ avail, p ≤ t.capacity) →
      ∃ t ∈ avail, p ≤ t.capacity ∧ findBestTableCombination avail p = [t] ∧
        ∀ u ∈ avail, p ≤ u.capacity → t.capacity ≤ u.capacity) ∧
    ((¬ ∃ t ∈ avail, p ≤ t.capacity) →
      (∃ pr ∈ pairsList avail, p ≤ pairCap pr) →
      ∃ pr ∈ pairsList avail, p ≤ pairCap pr ∧
        findBestTableCombination avail p = [pr.1, pr.2] ∧
        ∀ qr ∈ pairsList avail, p ≤ pairCap qr → pairCap pr ≤ pairCap qr) ∧
    ((¬ ∃ t ∈ avail, p ≤ t.capacity) →
      (¬ ∃ pr ∈ pairsList avail, p ≤ pairCap pr) →
      (∃ tr ∈ triplesList avail, p ≤ tripleCap tr) →
      ∃ tr ∈ triplesList avail, p ≤ tripleCap tr ∧
        findBestTableCombination avail p = [tr.1, tr.2.1, tr.2.2] ∧
        ∀ sr ∈ triplesList avail, p ≤ tripleCap sr → tripleCap tr ≤ tripleCap sr) ∧
    ((¬ ∃ t ∈ avail, p ≤ t.capacity) →
      (¬ ∃ pr ∈ pairsList avail, p ≤ pairCap pr) →
      (¬ ∃ tr ∈ triplesList avail, p ≤ tripleCap tr) →
      findBestTableCombination avail p = []) := by
  have hp0 : 0 < p := hp
  refine ⟨?_, ?_, ?_, ?_, ?_⟩
  · -- (1) exact fit
    intro hex
    have hsome : (avail.find? fun t => decide (t.capacity = p)).isSome := by
      rw [List.find?_isSome]
      obtain ⟨t, ht, he⟩ := hex
      exact ⟨t, ht, by simp [he]⟩
    obtain ⟨t, hfind⟩ := Option.isSome_iff_exists.mp hsome
    refine ⟨t, List.mem_of_find?_eq_some hfind, ?_, ?_⟩
    · have := List.find?_some hfind
      simpa using this
    · unfold findBestTableCombination
      rw [hfind]
  · -- (2) smallest sufficient single table
    intro hnoex hsuff
    have hnone : (avail.find? fun t => decide (t.capacity = p)) = none := by
      rw [List.find?_eq_none]
      intro t ht
      simp only [decide_eq_true_eq]
      exact fun he => hnoex ⟨t, ht, he⟩
    have hne : (avail.filter fun t => decide (p ≤ t.capacity)) ≠ [] := by
      obtain ⟨t, ht, hle⟩ := hsuff
      intro hnil
      have : t ∈ avail.filter fun t => decide (p ≤ t.capacity) :=
        List.mem_filter.mpr ⟨ht, by simp [hle]⟩
      rw [hnil] at this
      cases this
    have hsne : sortByCapacity (avail.filter fun t => decide (p ≤ t.capacity)) ≠ [] :=
      fun h => hne (sortByCapacity_eq_nil.mp h)
    obtain ⟨t, rest, hcons⟩ := List.exists_cons_of_ne_nil hsne
    have htmem : t ∈ avail.filter fun t => decide (p ≤ t.capacity) := by
      rw [← List.mem_insertionSort byCapacity]
      rw [sortByCapacity] at hcons
      rw [hcons]
      exact List.mem_cons_self _ _
    have htf := List.mem_filter.mp htmem
    refine ⟨t, htf.1, by simpa using htf.2, ?_, ?_⟩
    · unfold findBestTableCombination
      rw [hnone, hcons]
    · intro u hu hup
      have humem : u ∈ sortByCapacity (avail.filter fun t => decide (p ≤ t.capacity)) := by
        rw [sortByCapacity, List.mem_insertionSort]
        exact List.mem_filter.mpr ⟨hu, by simp [hup]⟩
      rw [hcons] at humem
      rcases List.mem_cons.mp humem with h | h
      · subst h; exact Nat.le_refl _
      · have hsorted := List.sorted_insertionSort byCapacity
          (avail.filter fun t => decide (p ≤ t.capacity))
        rw [show List.insertionSort byCapacity
            (avail.filter fun t => decide (p ≤ t.capacity)) =
            sortByCapacity (avail.filter fun t => decide (p ≤ t.capacity)) from rfl,
          hcons] at hsorted
        exact List.rel_of_sorted_cons hsorted u h
  · -- (3) minimal-waste pair
    intro hnosingle hpair
    have hnone : (avail.find? fun t => decide (t.capacity = p)) = none := by
      rw [List.find?_eq_none]
      intro t ht
      simp only [decide_eq_true_eq]
      exact fun he => hnosingle ⟨t, ht, Nat.le_of_eq he.symm⟩
    have hfilnil : (avail.filter fun t => decide (p ≤ t.capacity)) = [] := by
      rw [List.filter_eq_nil_iff]
      intro t ht
      simp only [decide_eq_true_eq]
      exact fun hle => hnosingle ⟨t, ht, hle⟩
    obtain ⟨pr, hmem, hq, heq, hmin⟩ :=
      bestRun_min p pairCap (fun pr => [pr.1, pr.2]) hp0 (pairsList avail) hpair
    refine ⟨pr, hmem, hq, ?_, hmin⟩
    unfold findBestTableCombination
    rw [hnone]
    rw [show sortByCapacity (avail.filter fun t => decide (p ≤ t.capacity)) = [] by
      rw [hfilnil]; rfl]
    rw [heq]
    rfl
  · -- (4) minimal-waste triple, only after the pairs fail
    intro hnosingle hnopair htriple
    have hnone : (avail.find? fun t => decide (t.capacity = p)) = none := by
      rw [List.find?_eq_none]
      intro t ht
      simp only [decide_eq_true_eq]
      exact fun he => hnosingle ⟨t, ht, Nat.le_of_eq he.symm⟩
    have hfilnil : (avail.filter fun t => decide (p ≤ t.capacity)) = [] := by
      rw [List.filter_eq_nil_iff]
      intro t ht
      simp only [decide_eq_true_eq]
      exact fun hle => hnosingle ⟨t, ht, hle⟩
    have hrunnil : bestRun p pairCap (fun pr => [pr.1, pr.2]) (pairsList avail) = ([], 0) :=
      bestRun_eq_nil p pairCap _ hp0 (pairsList avail)
        (fun it hit hq => hnopair ⟨it, hit, hq⟩)
    obtain ⟨tr, hmem, hq, heq, hmin⟩ :=
      bestRun_min p tripleCap (fun tr => [tr.1, tr.2.1, tr.2.2]) hp0
        (triplesList avail) htriple
    refine ⟨tr, hmem, hq, ?_, hmin⟩
    unfold findBestTableCombination
    rw [hnone]
    rw [show sortByCapacity (avail.filter fun t => decide (p ≤ t.capacity)) = [] by
      rw [hfilnil]; rfl]
    rw [hrunnil, heq]
    rfl
  · -- (5) nothing fits
    intro hnosingle hnopair hnotriple
    have hnone : (avail.find? fun t => decide (t.capacity = p)) = none := by
      rw [List.find?_eq_none]
      intro t ht
      simp only [decide_eq_true_eq]
      exact fun he => hnosingle ⟨t, ht, Nat.le_of_eq he.symm⟩
    have hfilnil : (avail.filter fun t => decide (p ≤ t.capacity)) = [] := by
      rw [List.filter_eq_nil_iff]
      intro t ht
      simp only [decide_eq_true_eq]
      exact fun hle => hnosingle ⟨t, ht, hle⟩
    have hrunnil : bestRun p pairCap (fun pr => [pr.1, pr.2]) (pairsList avail) = ([], 0) :=
      bestRun_eq_nil p pairCap _ hp0 (pairsList avail)
        (fun it hit hq => hnopair ⟨it, hit, hq⟩)
    have hrunnil3 : bestRun p tripleCap (fun tr => [tr.1, tr.2.1, tr.2.2])
        (triplesList avail) = ([], 0) :=
      bestRun_eq_nil p tripleCap _ hp0 (triplesList avail)
        (fun it hit hq => hnotriple ⟨it, hit, hq⟩)
    unfold findBestTableCombination
    rw [hnone]
    rw [show sortByCapacity (avail.filter fun t => decide (p ≤ t.capacity)) = [] by
      rw [hfilnil]; rfl]
    rw [hrunnil, hrunnil3]
    rfl

/-- Witness for C5 at concrete inputs: with tables of capacities 2, 2, 6 a
party of 6 gets the exact six-seater alone (never the pair), and with the
two two-seaters a party of 4 gets the minimal pair. -/
theorem findBestTableCombination_policy_witness :
    (∃ t ∈ w5tableExact, t.capacity = 6 ∧ findBestTableCombination w5tableExact 6 = [t]) ∧
    (∃ pr ∈ pairsList w5tablePair, 4 ≤ pairCap pr ∧
      findBestTableCombination w5tablePair 4 = [pr.1, pr.2] ∧
      ∀ qr ∈ pairsList w5tablePair, 4 ≤ pairCap qr → pairCap pr ≤ pairCap qr) := by
  constructor
  · exact (findBestTableCombination_policy w5tableExact 6 (by decide)).1
      ⟨⟨3, 6, true, true⟩, by decide, by decide⟩
  · exact (findBestTableCombination_policy w5tablePair 4 (by decide)).2.2.1
      (by decide) ⟨(⟨1, 2, true, true⟩, ⟨2, 2, true, true⟩), by decide, by decide⟩

set_option maxRecDepth 100000 in
/-- C8 counterexample.  The source computes `maxAllowed` with JavaScript
number (binary64) arithmetic, not exact integer arithmetic: at venue
capacity 100 and threshold 29 the source's
`Math.floor(100 * (29 / 100))` yields 28 (since `29 / 100` rounds to a
double slightly below `0.29`), while the exact
`floor(100 * 29 / 100)` the claim states is 29. -/
theorem jsMaxAllowed_neq_exact_floor :
    jsMaxAllowed 100 29 = 28 ∧ specMaxAllowed 100 29 = 29 ∧
      jsMaxAllowed 100 29 ≠ specMaxAllowed 100 29 := by
  exact ⟨by decide, by decide, by decide⟩

/-- C8 (amended).  Once the earlier stages pass (some active table exists,
the online party cap does not fire, candidates remain and the solver finds a
configuration), the capacity guard rejects exactly the non-staff requests
whose overlapping party-size sum plus the new party size exceeds
`maxAllowed` — computed by `Math.floor(maxCapacity * (threshold / 100))` in
binary64 floating point, which can differ from the exact integer
`floor(maxCapacity * threshold / 100)` — and every staff request bypasses
both the capacity guard and the online party-size cap. -/
theorem capacity_guard_condition (store : Store) (date s e p : Nat) (isStaff : Bool)
    (h1 : (store.tables.filter (·.isActive)).isEmpty = false)
    (h2 : isStaff = true ∨ p ≤ store.restaurant.bookingRules.maxPartySize)
    (h3 : (availableTablesOf store.tables store.bookings date s e).isEmpty = false)
    (h4 : (findBestTableCombination
        (availableTablesOf store.tables store.bookings date s e) p).isEmpty = false) :
    (findAvailableTables store date s e p isStaff =
        .notAvail "This booking would exceed the restaurant capacity for this time slot" ↔
      isStaff = false ∧
        overlapPartySum (overlappingBookings store.bookings date s e) s e + p >
          jsMaxAllowed store.restaurant.maxCapacity
            store.restaurant.bookingRules.maxCapacityThreshold) ∧
    (isStaff = true →
      findAvailableTables store date s e p isStaff =
        .avail (findBestTableCombination
            (availableTablesOf store.tables store.bookings date s e) p)
          ((findBestTableCombination
              (availableTablesOf store.tables store.bookings date s e) p).foldl
            (fun sum t => sum + t.capacity) 0)) := by
  cases isStaff with
  | true =>
    constructor
    · simp only [findAvailableTables, h1, h3, h4, Bool.not_true, Bool.false_and,
        Bool.false_eq_true, if_false]
      constructor
      · intro h; cases h
      · intro h; cases h.1
    · intro _
      simp only [findAvailableTables, h1, h3, h4, Bool.not_true, Bool.false_and,
        Bool.false_eq_true, if_false]
  | false =>
    have h2p : p ≤ store.restaurant.bookingRules.maxPartySize := by
      rcases h2 with h | h
      · cases h
      · exact h
    have hcap : decide (p > store.restaurant.bookingRules.maxPartySize) = false := by
      simp [Nat.not_lt_of_le h2p]
    constructor
    · simp only [findAvailableTables, h1, h3, h4, Bool.not_false, Bool.true_and, hcap,
        Bool.false_eq_true, if_false]
      by_cases hc : overlapPartySum (overlappingBookings store.bookings date s e) s e + p >
          jsMaxAllowed store.restaurant.maxCapacity
            store.restaurant.bookingRules.maxCapacityThreshold
      · simp [hc]
      · simp [hc]
    · intro h; cases h

set_option maxRecDepth 1000000 in
/-- Witness for C8's amended theorem: at capacity 100, threshold 29, with a
confirmed overlapping party of 26 on table 2, a customer request for a party
of 3 is rejected by the guard (26 + 3 = 29 exceeds the floating-point
`maxAllowed` of 28), even though the exact integer formula of the original
claim (`floor(100 * 29 / 100) = 29`) would have allowed it. -/
theorem capacity_guard_condition_witness :
    findAvailableTables w8store 3 (3 * 1440 + 1140) (3 * 1440 + 1260) 3 false =
      .notAvail "This booking would exceed the restaurant capacity for this time slot" ∧
    overlapPartySum (overlappingBookings w8store.bookings 3 (3 * 1440 + 1140)
        (3 * 1440 + 1260)) (3 * 1440 + 1140) (3 * 1440 + 1260) + 3 ≤
      specMaxAllowed w8store.restaurant.maxCapacity
        w8store.restaurant.bookingRules.maxCapacityThreshold := by
  constructor
  · exact (capacity_guard_condition w8store 3 (3 * 1440 + 1140) (3 * 1440 + 1260) 3 false
      (by decide) (Or.inr (by decide)) (by decide) (by decide)).1.mpr ⟨rfl, by decide⟩
  · decide

/-- An upsert sequence leaves keys it never writes untouched. -/
theorem writeAll_apply_not_mem (l : List ((Nat × Nat) × Snapshot)) (c : Cache)
    (k : Nat × Nat) (hk : k ∉ l.map Prod.fst) : writeAll l c k = c k := by
  induction l generalizing c with
  | nil => rfl
  | cons e es ih =>
    simp only [List.map_cons, List.mem_cons, not_or] at hk
    have h1 : writeAll (e :: es) c = writeAll es (upsert e.1 e.2 c) := rfl
    rw [h1, ih _ hk.2]
    simp [upsert, hk.1]

/-- An upsert sequence only reads its initial cache at unwritten keys. -/
theorem writeAll_eq_of_agree (l : List ((Nat × Nat) × Snapshot)) (c₁ c₂ : Cache)
    (h : ∀ k, k ∉ l.map Prod.fst → c₁ k = c₂ k) : writeAll l c₁ = writeAll l c₂ := by
  induction l generalizing c₁ c₂ with
  | nil => funext k; exact h k (by simp)
  | cons e es ih =>
    have h1 : writeAll (e :: es) c₁ = writeAll es (upsert e.1 e.2 c₁) := rfl
    have h2 : writeAll (e :: es) c₂ = writeAll es (upsert e.1 e.2 c₂) := rfl
    rw [h1, h2]
    refine ih _ _ fun k hk => ?_
    by_cases hke : k = e.1
    · simp [upsert, hke]
    · simp only [upsert, hke, if_false]
      exact h k (by simp [hk, hke])

/-- Repeating an upsert sequence changes nothing. -/
theorem writeAll_writeAll (l : List ((Nat × Nat) × Snapshot)) (c : Cache) :
    writeAll l (writeAll l c) = writeAll l c :=
  writeAll_eq_of_agree l _ c fun k hk => writeAll_apply_not_mem l c k hk

/-- If `k` is written with value `v` and every write to `k` carries `v`,
the final cache holds `v` at `k`. -/
theorem writeAll_lookup_unique (l : List ((Nat × Nat) × Snapshot)) (c : Cache)
    (k : Nat × Nat) (v : Snapshot) (hmem : (k, v) ∈ l)
    (huniq : ∀ e ∈ l, e.1 = k → e.2 = v) : writeAll l c k = some v := by
  induction l generalizing c with
  | nil => cases hmem
  | cons e es ih =>
    have h1 : writeAll (e :: es) c = writeAll es (upsert e.1 e.2 c) := rfl
    rw [h1]
    by_cases hk : k ∈ es.map Prod.fst
    · obtain ⟨e2, he2, hfst⟩ := List.mem_map.mp hk
      have hv2 : e2.2 = v := huniq e2 (List.mem_cons_of_mem e he2) hfst
      have hm2 : (k, v) ∈ es := by
        have he22 : e2 = (k, v) := Prod.ext hfst hv2
        rwa [he22] at he2
      exact ih _ hm2 (fun e3 he3 h3 => huniq e3 (List.mem_cons_of_mem e he3) h3)
    · have he : e = (k, v) := by
        rcases List.mem_cons.mp hmem with h | h
        · exact h.symm
        · exact absurd (List.mem_map.mpr ⟨(k, v), h, rfl⟩) hk
      rw [writeAll_apply_not_mem es _ k hk]
      simp [upsert, he]

/-- C9.  The availability-cache rebuild is idempotent: with the restaurant
settings, tables and bookings unchanged, rebuilding a date twice and
rebuilding it once produce identical caches — each `(date, table)` key holds
the same free-slot list and the same blocked list. -/
theorem updateAvailabilityCache_idempotent (r : Restaurant) (allTables : List Table)
    (allBookings : List Booking) (date : Nat) (c : Cache) :
    updateAvailabilityCache r allTables allBookings date
        (updateAvailabilityCache r allTables allBookings date c) =
      updateAvailabilityCache r allTables allBookings date c :=
  writeAll_writeAll (cacheEntries r allTables allBookings date) c

/-- Every generated slot is exactly one slot-duration wide and lies inside
the window the generation started from. -/
theorem genSlotsAux_shape (fuel : Nat) :
    ∀ cur endT dur, ∀ sl ∈ genSlotsAux fuel cur endT dur,
      sl.2 = sl.1 + dur ∧ cur ≤ sl.1 ∧ sl.2 ≤ endT := by
  induction fuel with
  | zero => intro cur endT dur sl h; cases h
  | succ n ih =>
    intro cur endT dur sl h
    unfold genSlotsAux at h
    by_cases h1 : cur < endT
    · rw [if_pos h1] at h
      by_cases h2 : cur + dur > endT
      · rw [if_pos h2] at h; cases h
      · rw [if_neg h2] at h
        rcases List.mem_cons.mp h with h3 | h3
        · subst h3
          exact ⟨rfl, Nat.le_refl _, Nat.le_of_not_lt h2⟩
        · obtain ⟨ha, hb, hc⟩ := ih (cur + dur) endT dur sl h3
          exact ⟨ha, Nat.le_trans (Nat.le_add_right _ _) hb, hc⟩
    · rw [if_neg h1] at h; cases h

/-- The slot-shape property at the `genSlots` wrapper. -/
theorem genSlots_shape (startT endT dur : Nat) :
    ∀ sl ∈ genSlots startT endT dur,
      sl.2 = sl.1 + dur ∧ startT ≤ sl.1 ∧ sl.2 ≤ endT :=
  genSlotsAux_shape _ startT endT dur

/-- C3 counterexample.  The rebuild does not subtract booked slots from the
free list: on the open day 3 with a confirmed 11:00-13:00 booking on table 1,
the written snapshot still lists the 11:00-11:30 slot as available while the
same snapshot's blocked list records the intersecting booking interval. -/
theorem availability_cache_free_slot_overlaps_booking :
    ∃ snap,
      updateAvailabilityCache plainRestaurant c3tables [c3booking] 3 emptyCache (3, 1) =
        some snap ∧
      (3 * 1440 + 660, 3 * 1440 + 690) ∈ snap.availableSlots ∧
      ∃ bl ∈ snap.blockedSlots, bl.reason = "booking" ∧ bl.bookingId = some 7 ∧
        bl.start < 3 * 1440 + 690 ∧ 3 * 1440 + 660 < bl.endT := by
  refine ⟨(updateAvailabilityCache plainRestaurant c3tables [c3booking] 3 emptyCache
    (3, 1)).getD ⟨[], []⟩, ?_, ?_, ?_⟩
  · decide
  · decide
  · decide

/-- C3 (amended).  On an open date the rebuild writes, for each active table
with a unique id, a snapshot whose free-slot list is the full generated slot
partition of the operating window — every slot exactly one slot-duration
wide and inside the window, with no dependence on the table's bookings — and
whose blocked list is exactly the table's active bookings for that date
tagged `booking`; free slots are not reduced by the blocked intervals. -/
theorem availability_cache_free_list_full_partition (r : Restaurant)
    (allTables : List Table) (allBookings : List Booking) (date : Nat) (c : Cache)
    (t : Table) (ht : t ∈ allTables) (hact : t.isActive = true)
    (huniq : ∀ u ∈ allTables, u.isActive = true → u.id = t.id → u = t)
    (hopen : cacheDayClosed r date = false) :
    ∃ snap,
      updateAvailabilityCache r allTables allBookings date c (date, t.id) = some snap ∧
      snap.availableSlots =
        genSlots (cacheStart r date) (cacheEnd r date) r.bookingRules.timeSlotDuration ∧
      (∀ sl ∈ snap.availableSlots,
        sl.2 = sl.1 + r.bookingRules.timeSlotDuration ∧
          cacheStart r date ≤ sl.1 ∧ sl.2 ≤ cacheEnd r date) ∧
      snap.blockedSlots =
        ((dayBookingsOf allBookings date).filter fun b => b.tables.contains t.id).map
          (fun b => ⟨b.timeSlot.start, b.timeSlot.endT, "booking", some b.id⟩) := by
  refine ⟨tableSnapshot (dayBookingsOf allBookings date) (cacheStart r date)
    (cacheEnd r date) r.bookingRules.timeSlotDuration t, ?_, rfl, ?_, rfl⟩
  · unfold updateAvailabilityCache
    apply writeAll_lookup_unique
    · unfold cacheEntries
      rw [if_neg (by simp [hopen])]
      exact List.mem_map.mpr ⟨t, List.mem_filter.mpr ⟨ht, by simp [hact]⟩, rfl⟩
    · intro e he h1
      unfold cacheEntries at he
      rw [if_neg (by simp [hopen])] at he
      obtain ⟨u, hu, hue⟩ := List.mem_map.mp he
      have hu2 := List.mem_filter.mp hu
      have : u = t := by
        apply huniq u hu2.1 (by simpa using hu2.2)
        have := congrArg Prod.fst hue
        rw [h1] at this
        simpa using this
      rw [← hue, this]
  · exact genSlots_shape _ _ _

/-- Witness for C3's amended theorem at the counterexample store: the
snapshot of table 1 on day 3 carries the full 11:00-22:00 partition into
30-minute slots and the one blocked interval of the 11:00-13:00 booking. -/
theorem availability_cache_free_list_full_partition_witness :
    ∃ snap,
      updateAvailabilityCache plainRestaurant c3tables [c3booking] 3 emptyCache (3, 1) =
        some snap ∧
      snap.availableSlots =
        genSlots (cacheStart plainRestaurant 3) (cacheEnd plainRestaurant 3)
          plainRestaurant.bookingRules.timeSlotDuration ∧
      (∀ sl ∈ snap.availableSlots,
        sl.2 = sl.1 + plainRestaurant.bookingRules.timeSlotDuration ∧
          cacheStart plainRestaurant 3 ≤ sl.1 ∧ sl.2 ≤ cacheEnd plainRestaurant 3) ∧
      snap.blockedSlots =
        ((dayBookingsOf [c3booking] 3).filter fun b => b.tables.contains (1 : Nat)).map
          (fun b => ⟨b.timeSlot.start, b.timeSlot.endT, "booking", some b.id⟩) := by
  have h := availability_cache_free_list_full_partition plainRestaurant c3tables
    [c3booking] 3 emptyCache ⟨1, 4, true, true⟩ (by decide) (by decide)
    (by decide) (by decide)
  exact h

set_option maxRecDepth 100000 in
/-- C4.  The check-then-commit sequence is not serialized: two concurrent
customer requests for the one remaining table over the same window may both
pass the availability check against the initial store before either commits,
and then both persist — the interleaved run ends with two overlapping
bookings on table 1, violating "at most one request results in a persisted
booking".  Under the serialized order the second request is instead rejected
with the no-tables reason, which is what the claim requires. -/
theorem concurrent_create_double_books :
    bookingDecision raceStore raceReq = .ok [1] ∧
    ¬ noDoubleBooking (interleavedCreate raceStore raceReq raceReq).bookings ∧
    ((interleavedCreate raceStore raceReq raceReq).bookings.map (·.tables)) = [[1], [1]] ∧
    (createBooking (createBooking raceStore raceReq).2 raceReq).1 =
      .notAvailRejected "No tables available for the requested time" := by
  exact ⟨by decide, by decide, by decide, by decide⟩

/-- C10.  A staff-originated creation request never reaches the calendar
check: `createBooking` can never answer a staff caller with the venue-closed
rejection, a staff request naming explicit tables is always persisted, and a
staff request without explicit tables is persisted whenever the (calendar-
blind) table search succeeds — all regardless of closed dates, weekly
closures or opening hours. -/
theorem staff_create_skips_calendar_check (store : Store) (req : CreateRequest)
    (hstaff : req.isStaff = true) :
    (∀ reason, (createBooking store req).1 ≠ .closedRejected reason) ∧
    (req.tableIds ≠ [] →
      (createBooking store req).1 = .created (mkBooking store req req.tableIds) ∧
      mkBooking store req req.tableIds ∈ (createBooking store req).2.bookings) ∧
    (∀ ts cap, req.tableIds = [] →
      findAvailableTables store req.date (req.date * 1440 + req.time)
          (req.date * 1440 + req.time + req.duration.getD 120) req.partySize true =
        .avail ts cap →
      (createBooking store req).1 = .created (mkBooking store req (ts.map (·.id)))) := by
  have hdec : bookingDecision store req =
      assignTableIds store req (req.date * 1440 + req.time)
        (req.date * 1440 + req.time + req.duration.getD 120) := by
    unfold bookingDecision
    rw [hstaff]
    rfl
  refine ⟨?_, ?_, ?_⟩
  · intro reason
    unfold createBooking
    rw [hdec]
    unfold assignTableIds
    by_cases hids : req.tableIds.isEmpty
    · rw [if_pos hids, hstaff]
      cases findAvailableTables store req.date (req.date * 1440 + req.time)
        (req.date * 1440 + req.time + req.duration.getD 120) req.partySize true <;> simp
    · rw [if_neg hids]
      simp
  · intro hne
    have hids : req.tableIds.isEmpty = false := by
      cases h : req.tableIds with
      | nil => exact absurd h hne
      | cons a l => rfl
    unfold createBooking
    rw [hdec]
    unfold assignTableIds
    rw [hids]
    simp [commitBooking]
  · intro ts cap hids hfind
    unfold createBooking
    rw [hdec]
    unfold assignTableIds
    rw [hids, hstaff]
    simp only [List.isEmpty_nil, if_true, hfind]

/-- Witness for C10: on a store whose restaurant is closed on date 3, the
staff request for table 1 at 19:00-21:00 is persisted as a confirmed manual
booking. -/
theorem staff_create_skips_calendar_check_witness :
    checkRestaurantOpen closedDayStore.restaurant 3 (3 * 1440 + 1140) (3 * 1440 + 1260) =
      .closed "Restaurant is closed on this date: holiday" ∧
    (createBooking closedDayStore staffClosedDayReq).1 =
      .created (mkBooking closedDayStore staffClosedDayReq [1]) ∧
    mkBooking closedDayStore staffClosedDayReq [1] ∈
      (createBooking closedDayStore staffClosedDayReq).2.bookings := by
  refine ⟨by decide, ?_⟩
  have h := (staff_create_skips_calendar_check closedDayStore staffClosedDayReq rfl).2.1
    (by decide)
  exact h

/-- C2.  `updateBookingStatus` does NOT validate the lifecycle state
machine: for a booking whose current status is `completed` (terminal), a
request to set it back to `pending` is accepted and the stored status
changes, where the claim requires an error and an unchanged booking. -/
theorem terminal_status_transition_accepted :
    completedBooking.status = .completed ∧
    sampleStoreC2.bookings = [completedBooking] ∧
    (updateBookingStatus sampleStoreC2 1 "pending").1 =
      .updated { completedBooking with status := .pending } ∧
    ((updateBookingStatus sampleStoreC2 1 "pending").2.bookings.map (·.status)) =
      [.pending] := by
  refine ⟨by decide, by decide, by decide, by decide⟩

end RBS
